import Mathlib

/-!
Verification development for the meditation session engine of `cyberdeck.py`
(ameily/cyberdeck). The Python source is shallowly embedded below: Python
`int` becomes `ℤ`, Python float arithmetic is modelled exactly by `ℚ`
(the spec's invariants are stated "up to floating-point rounding", so the
exact-rational model is the reference semantics), the external duration
probe (`ffprobe`) is modelled by an explicit probe-result value, and the
process-global random shuffle is modelled by quantifying over the
post-shuffle order of the catalog list.
-/

/-- `Meditation` (cyberdeck.py lines 131-162): an audio guided meditation.
`duration` is a Python `int` (seconds); `offset` starts at `0` and is later
assigned `duration + padding` accumulations, which are Python floats, hence
`ℚ` here. -/
structure Meditation where
  path : String
  duration : ℤ
  offset : ℚ := 0
deriving DecidableEq, Repr

/-- One line of `ffprobe -show_format` output, as far as `Meditation.load`
inspects it: a line that does not start with `duration=`; a `duration=`
line whose value `float()` parses, carrying that numeric value; or a
`duration=` line whose value `float()` rejects (ffprobe emits
`duration=N/A` for media of unknown duration). -/
inductive ProbeLine where
  | other : ProbeLine
  | durationLine : ℚ → ProbeLine
  | durationUnparsable : ProbeLine
deriving DecidableEq, Repr

/-- Result of running the external duration probe on one file:
`failure` embeds `subprocess.CalledProcessError` (non-zero exit), `success`
carries the output lines. -/
inductive ProbeResult where
  | failure : ProbeResult
  | success : List ProbeLine → ProbeResult
deriving DecidableEq, Repr

/-- Python `int(x)` on a float/rational: truncation toward zero,
matching Python `int(float(...))` (`Int.tdiv` is truncating division). -/
def pyTrunc (q : ℚ) : ℤ := q.num.tdiv (q.den : ℤ)

/-- The scan in `Meditation.load` (lines 156-162): the first
`duration=`-prefixed line of the probe output. `some (some v)` when its
value parses to `v`, `some none` when its value fails `float()`, `none`
when no line has the prefix (later lines are never inspected: the loop
returns or raises at the first match). -/
def findDuration : List ProbeLine → Option (Option ℚ)
  | [] => none
  | ProbeLine.other :: rest => findDuration rest
  | ProbeLine.durationLine v :: _ => some (some v)
  | ProbeLine.durationUnparsable :: _ => some none

/-- The run-time error `Meditation.load` can raise: line 159 runs
`int(float(line.split(b'=')[1].strip()))` with no handler, so a
`duration=` value that `float()` rejects raises `ValueError`. -/
inductive LoadError where
  | valueError : LoadError
deriving DecidableEq, Repr

/-- `Meditation.load` (cyberdeck.py lines 144-162): probe failure
(`CalledProcessError`) yields `None`; the first `duration=` line is
parsed with `int(float(...))` and a clip is returned — a duration that
truncates to `0` still yields a clip — but a value `float()` rejects
raises an uncaught `ValueError` (the `try` covers only the probe call);
no `duration=` line yields `None`. -/
def Meditation.load (path : String) (probe : ProbeResult) :
    Except LoadError (Option Meditation) :=
  match probe with
  | ProbeResult.failure => Except.ok none
  | ProbeResult.success lines =>
    match findDuration lines with
    | some (some v) =>
      Except.ok (some { path := path, duration := pyTrunc v, offset := 0 })
    | some none => Except.error LoadError.valueError
    | none => Except.ok none

/-- `Cyberdeck.load_meditations` (lines 488-509): each directory entry is
probed; entries for which `Meditation.load` returns `None` are skipped
(the code prints `error` and continues) and the rest are collected in
order, but a `ValueError` escaping `Meditation.load` propagates and
aborts the whole loading. A directory listing failure yields the empty
file list, hence an empty catalog. -/
def load_meditations :
    List (String × ProbeResult) → Except LoadError (List Meditation)
  | [] => Except.ok []
  | f :: rest =>
    match Meditation.load f.1 f.2 with
    | Except.error e => Except.error e
    | Except.ok none => load_meditations rest
    | Except.ok (some m) =>
      match load_meditations rest with
      | Except.error e => Except.error e
      | Except.ok ms => Except.ok (m :: ms)

/-- `MeditationSession` (lines 165-198). -/
structure MeditationSession where
  meditations : List Meditation
  duration : ℤ
  padding : ℚ
deriving DecidableEq, Repr

/-- The run-time error that `MeditationSession.create` can raise:
`remaining / len(selected)` with an empty selection raises Python's
`ZeroDivisionError` (there is no guard in the code). -/
inductive PlanError where
  | zeroDivisionError : PlanError
deriving DecidableEq, Repr

/-- The selection walk of `MeditationSession.create` (lines 181-184) over
the (already shuffled) catalog: a clip is appended iff its duration is
strictly below the remaining budget, and `remaining` is decremented by the
clip's duration on acceptance. Returns the selection (in walk order) and
the final remaining budget. -/
def selectWalk : List Meditation → ℤ → List Meditation × ℤ
  | [], remaining => ([], remaining)
  | m :: rest, remaining =>
    if m.duration < remaining then
      (m :: (selectWalk rest (remaining - m.duration)).1,
        (selectWalk rest (remaining - m.duration)).2)
    else selectWalk rest remaining

/-- The offset-assignment loop of `MeditationSession.create` (lines
187-190): `meditation.offset = offset; offset += meditation.duration +
padding`, a running accumulator. This mutates the (shared) `Meditation`
objects in place in Python; here the updated objects are returned. -/
def assignOffsets (padding : ℚ) : ℚ → List Meditation → List Meditation
  | _, [] => []
  | offset, m :: rest =>
    { m with offset := offset } ::
      assignOffsets padding (offset + (m.duration : ℚ) + padding) rest

/-- `MeditationSession.create` (lines 174-192). The caller's list is
walked in its given order (the `random.shuffle` is modelled by quantifying
over that order). There is no empty-selection guard in the code: when the
walk selects nothing, `remaining / len(selected)` raises
`ZeroDivisionError`, embedded as the `Except.error` branch. `padding` is
Python float true division, modelled exactly in `ℚ`. -/
def MeditationSession.create (available : List Meditation) (duration : ℤ) :
    Except PlanError MeditationSession :=
  if (selectWalk available duration).1.length = 0 then
    Except.error PlanError.zeroDivisionError
  else
    Except.ok
      { meditations :=
          assignOffsets
            (((selectWalk available duration).2 : ℚ) /
              ((selectWalk available duration).1.length : ℚ))
            0 (selectWalk available duration).1
        duration := duration
        padding :=
          ((selectWalk available duration).2 : ℚ) /
            ((selectWalk available duration).1.length : ℚ) }

/-! ### Basic lemmas about the selection walk and offset assignment -/

theorem selectWalk_nil (r : ℤ) : selectWalk [] r = ([], r) := rfl

theorem selectWalk_cons_accept {m : Meditation} {rest : List Meditation} {r : ℤ}
    (h : m.duration < r) :
    selectWalk (m :: rest) r
      = (m :: (selectWalk rest (r - m.duration)).1,
          (selectWalk rest (r - m.duration)).2) := by
  simp [selectWalk, h]

theorem selectWalk_cons_reject {m : Meditation} {rest : List Meditation} {r : ℤ}
    (h : ¬ m.duration < r) :
    selectWalk (m :: rest) r = selectWalk rest r := by
  simp [selectWalk, h]

/-- If the walk selects nothing, the remaining budget is untouched. -/
theorem selectWalk_empty_remaining :
    ∀ (l : List Meditation) (r : ℤ), (selectWalk l r).1 = [] → (selectWalk l r).2 = r := by
  intro l
  induction l with
  | nil => intro r _; rfl
  | cons m rest ih =>
    intro r hsel
    by_cases h : m.duration < r
    · rw [selectWalk_cons_accept h] at hsel
      exact absurd hsel (List.cons_ne_nil _ _)
    · rw [selectWalk_cons_reject h] at hsel ⊢
      exact ih r hsel

/-- The selected durations sum to the consumed part of the budget. -/
theorem selectWalk_sum :
    ∀ (l : List Meditation) (r : ℤ),
      ((selectWalk l r).1.map Meditation.duration).sum = r - (selectWalk l r).2 := by
  intro l
  induction l with
  | nil => intro r; simp [selectWalk]
  | cons m rest ih =>
    intro r
    by_cases h : m.duration < r
    · rw [selectWalk_cons_accept h]
      simp only [List.map_cons, List.sum_cons]
      rw [ih]
      ring
    · rw [selectWalk_cons_reject h]
      exact ih r

/-- Every acceptance leaves the remaining budget strictly positive, so a
non-empty selection forces a strictly positive final remaining budget. -/
theorem selectWalk_pos_remaining :
    ∀ (l : List Meditation) (r : ℤ), (selectWalk l r).1 ≠ [] → 0 < (selectWalk l r).2 := by
  intro l
  induction l with
  | nil => intro r h; exact absurd rfl h
  | cons m rest ih =>
    intro r hne
    by_cases h : m.duration < r
    · rw [selectWalk_cons_accept h]
      by_cases hrest : (selectWalk rest (r - m.duration)).1 = []
      · rw [selectWalk_empty_remaining rest (r - m.duration) hrest]
        omega
      · exact ih (r - m.duration) hrest
    · rw [selectWalk_cons_reject h] at hne ⊢
      exact ih r hne

/-- The selection is a sublist of the walked catalog. -/
theorem selectWalk_mem :
    ∀ (l : List Meditation) (r : ℤ) (m : Meditation),
      m ∈ (selectWalk l r).1 → m ∈ l := by
  intro l
  induction l with
  | nil => intro r m h; simp [selectWalk] at h
  | cons a rest ih =>
    intro r m hm
    by_cases h : a.duration < r
    · rw [selectWalk_cons_accept h] at hm
      rcases List.mem_cons.mp hm with heq | htail
      · exact heq ▸ List.mem_cons_self a rest
      · exact List.mem_cons_of_mem a (ih _ m htail)
    · rw [selectWalk_cons_reject h] at hm
      exact List.mem_cons_of_mem a (ih r m hm)

/-- Offset assignment rewrites only the `offset` field: paths and
durations pass through unchanged. -/
theorem assignOffsets_map_path_duration (p : ℚ) :
    ∀ (l : List Meditation) (o : ℚ),
      (assignOffsets p o l).map (fun m => (m.path, m.duration))
        = l.map (fun m => (m.path, m.duration)) := by
  intro l
  induction l with
  | nil => intro o; rfl
  | cons m rest ih =>
    intro o
    simp only [assignOffsets, List.map_cons]
    rw [ih]

theorem assignOffsets_map_duration (p : ℚ) :
    ∀ (l : List Meditation) (o : ℚ),
      (assignOffsets p o l).map Meditation.duration = l.map Meditation.duration := by
  intro l
  induction l with
  | nil => intro o; rfl
  | cons m rest ih => intro o; simp [assignOffsets, ih]

theorem assignOffsets_length (p : ℚ) :
    ∀ (l : List Meditation) (o : ℚ), (assignOffsets p o l).length = l.length := by
  intro l
  induction l with
  | nil => intro o; rfl
  | cons m rest ih => intro o; simp [assignOffsets, ih]

/-- Inversion of a successful `MeditationSession.create`: the selection is
non-empty, and the returned fields are exactly the ones the code builds. -/
theorem create_ok {available : List Meditation} {dur : ℤ} {s : MeditationSession}
    (h : MeditationSession.create available dur = Except.ok s) :
    (selectWalk available dur).1 ≠ [] ∧
    s.padding = ((selectWalk available dur).2 : ℚ) /
        ((selectWalk available dur).1.length : ℚ) ∧
    s.meditations = assignOffsets s.padding 0 (selectWalk available dur).1 ∧
    s.duration = dur := by
  unfold MeditationSession.create at h
  by_cases hlen : (selectWalk available dur).1.length = 0
  · rw [if_pos hlen] at h
    exact absurd h (by simp)
  · rw [if_neg hlen] at h
    have hs := Except.ok.inj h
    subst hs
    refine ⟨fun hnil => hlen (by rw [hnil]; rfl), rfl, rfl, rfl⟩

/-! ### Playback tick policy, cancellation, and renderer geometry -/

/-- The effect of one polling tick of the `play_meditation` loop (lines
532-545): `cycle` is incremented before the checks, so tick counts start
at 1. On a multiple of 90 a heartbeat frame is rendered and the backlight
goes on; on a multiple of 30 that is not a multiple of 90 the backlight
goes off (`elif`); otherwise the tick only sleeps. -/
structure TickEffect where
  heartbeat : Bool
  backlight : Option Bool
deriving DecidableEq, Repr

def tickEffect (cycle : ℕ) : TickEffect :=
  if cycle % 90 = 0 then ⟨true, some true⟩
  else if cycle % 30 = 0 then ⟨false, some false⟩
  else ⟨false, none⟩

/-- State visible to the playback controller: the touchscreen backlight
and whether a spawned child (vlc) process is running. -/
structure PlayState where
  backlight : Bool
  childRunning : Bool
deriving DecidableEq, Repr

inductive PlayOutcome where
  | completed : PlayOutcome
  | cancelled : PlayOutcome
deriving DecidableEq, Repr

def applyWrite (s : PlayState) : Option Bool → PlayState
  | some b => { s with backlight := b }
  | none => s

/-- Run the backlight writes of ticks `1..n` of the meditation loop. -/
def runTicks (s : PlayState) (n : ℕ) : PlayState :=
  (List.range' 1 n).foldl (fun st c => applyWrite st (tickEffect c).backlight) s

/-- Entry to `play_meditation` (lines 524-531): heartbeat frame, backlight
on, vlc spawned. -/
def playMeditationStart (_s : PlayState) : PlayState :=
  { backlight := true, childRunning := true }

/-- `play_meditation` with a `KeyboardInterrupt` delivered at tick `t`
(lines 534-551): ticks `1..t-1` run normally, then the handler terminates
the child and waits for it, the exception is re-raised, and the `finally`
block unconditionally turns the backlight on. -/
def playMeditationCancelAt (s0 : PlayState) (t : ℕ) : PlayState × PlayOutcome :=
  let s1 := runTicks (playMeditationStart s0) (t - 1)
  ({ s1 with childRunning := false, backlight := true }, PlayOutcome.cancelled)

/-- `play_alarm` with a `KeyboardInterrupt` delivered at tick `t` (lines
610-624): the looping vlc is spawned, the polling loop performs no
backlight writes at all, and the handler terminates the child, waits for
it, and re-raises — there is no `finally` and no backlight write on this
path. -/
def playAlarmCancelAt (s0 : PlayState) (_t : ℕ) : PlayState × PlayOutcome :=
  ({ backlight := s0.backlight, childRunning := false }, PlayOutcome.cancelled)

/-- Number of lines of the status block built by
`meditation_session_heartbeat` (lines 562-582): four header lines, one
line per meditation of the session, two trailing lines. -/
def statusLen (s : MeditationSession) : ℕ := 6 + s.meditations.length

/-- Support of Python's `random.randint(a, b)`: every integer of the
closed interval `[a, b]` and nothing else. -/
def randintSupport (a b : ℤ) : Finset ℤ := Finset.Icc a b

/-- The set of starting lines the status block can be placed at:
`random.randint(0, term_size.lines - 1 - len(status))` (line 585). -/
def topSupport (lines : ℕ) (s : MeditationSession) : Finset ℤ :=
  randintSupport 0 ((lines : ℤ) - 1 - (statusLen s : ℤ))

/-- Modelled from the spec: the placement interval the spec claims,
`[0, totalLines − statusBlockLines]`, stated for refinement comparison
with `topSupport` (the definition taken from the code). -/
def specTopSupport (lines : ℕ) (s : MeditationSession) : Finset ℤ :=
  Finset.Icc 0 ((lines : ℤ) - (statusLen s : ℤ))

/-- `random.choices(population, weights, k)` as far as its length is
observable: `k` independent draws from the caller-supplied random source. -/
def pyChoices (rand : ℕ → Char) (k : ℕ) : List Char :=
  (List.range k).map rand

/-- The noise buffer of one heartbeat frame (lines 587-588):
`k = (term_size.lines - len(status)) * term_size.columns` weighted draws.
(`random.choices` returns the empty list when `k ≤ 0`, which the natural
truncated subtraction reproduces.) -/
def noiseCells (lines cols : ℕ) (s : MeditationSession) (rand : ℕ → Char) : List Char :=
  pyChoices rand ((lines - statusLen s) * cols)

/-- With strictly positive padding and non-negative durations, the
assigned offsets form a strictly increasing chain, each at least the
starting accumulator value. -/
theorem assignOffsets_strict_chain (p : ℚ) (hp : 0 < p) :
    ∀ (l : List Meditation) (o : ℚ), (∀ m ∈ l, 0 ≤ m.duration) →
      List.Chain' (· < ·) ((assignOffsets p o l).map Meditation.offset) ∧
      ∀ q ∈ (assignOffsets p o l).map Meditation.offset, o ≤ q := by
  intro l
  induction l with
  | nil =>
    intro o _
    exact ⟨List.chain'_nil, by simp [assignOffsets]⟩
  | cons m rest ih =>
    intro o hd
    have hdm : (0 : ℚ) ≤ (m.duration : ℚ) := by
      exact_mod_cast hd m (List.mem_cons_self m rest)
    have hrest := ih (o + (m.duration : ℚ) + p)
      (fun x hx => hd x (List.mem_cons_of_mem _ hx))
    have hstep : (assignOffsets p o (m :: rest)).map Meditation.offset
        = o :: (assignOffsets p (o + (m.duration : ℚ) + p) rest).map Meditation.offset := rfl
    constructor
    · rw [hstep]
      refine List.chain'_cons'.mpr ⟨?_, hrest.1⟩
      intro b hb
      have hmem := hrest.2 b (List.mem_of_mem_head? hb)
      linarith
    · intro q hq
      rw [hstep] at hq
      rcases List.mem_cons.mp hq with rfl | hq'
      · exact le_refl q
      · have := hrest.2 q hq'
        linarith

/-- The accumulator relation between consecutive scheduled clips: each
offset is the previous offset plus the previous duration plus the padding. -/
theorem assignOffsets_accumulator (p : ℚ) :
    ∀ (l : List Meditation) (o : ℚ),
      List.Chain' (fun a b => b.offset = a.offset + (a.duration : ℚ) + p)
        (assignOffsets p o l) := by
  intro l
  induction l with
  | nil => intro o; exact List.chain'_nil
  | cons m rest ih =>
    intro o
    have hstep : assignOffsets p o (m :: rest)
        = { m with offset := o } ::
            assignOffsets p (o + (m.duration : ℚ) + p) rest := rfl
    rw [hstep]
    refine List.chain'_cons'.mpr ⟨?_, ih (o + (m.duration : ℚ) + p)⟩
    intro b hb
    cases rest with
    | nil => simp [assignOffsets] at hb
    | cons m2 rest2 =>
      have hbe : { m2 with offset := o + (m.duration : ℚ) + p } = b := by
        simpa [assignOffsets] using hb
      rw [← hbe]

/-- The head of the assigned list carries exactly the starting offset. -/
theorem assignOffsets_head (p o : ℚ) (m : Meditation) (l : List Meditation) :
    (assignOffsets p o (m :: l)).head? = some { m with offset := o } := rfl

/-! ### Claim theorems -/

/-- C1: the claim says that when the selection walk accepts no clip the
planner fails with `NoClipsSelected` and the division of the leftover
budget by the number of selected clips is never reached. The code has no
such guard: with an empty catalog, or with a budget not larger than any
clip's duration, `MeditationSession.create` reaches
`padding = remaining / len(selected)` with `len(selected) = 0` and raises
`ZeroDivisionError`. This theorem evaluates the embedded code at both
failing inputs. -/
theorem c1_empty_selection_raises_zero_division :
    MeditationSession.create [] 3600 = Except.error PlanError.zeroDivisionError ∧
    MeditationSession.create [{ path := "clip", duration := 100, offset := 0 }] 50
      = Except.error PlanError.zeroDivisionError :=
  ⟨rfl, rfl⟩

/-- C2: a clip is appended to the selection iff its duration is strictly
below the remaining budget, with `remaining` decremented on acceptance;
consequently every plan `MeditationSession.create` returns has
`sum(durations of selected clips)` strictly below the budget and
non-negative padding. -/
theorem c2_strict_sum_and_walk_characterization
    (available : List Meditation) (budget : ℤ) (s : MeditationSession)
    (h : MeditationSession.create available budget = Except.ok s) :
    ((s.meditations.map Meditation.duration).sum < budget ∧ 0 ≤ s.padding) ∧
    ∀ (m : Meditation) (rest : List Meditation) (r : ℤ),
      (m.duration < r →
        selectWalk (m :: rest) r
          = (m :: (selectWalk rest (r - m.duration)).1,
              (selectWalk rest (r - m.duration)).2)) ∧
      (¬ m.duration < r → selectWalk (m :: rest) r = selectWalk rest r) := by
  obtain ⟨hne, hpad, hmeds, -⟩ := create_ok h
  have hrem : 0 < (selectWalk available budget).2 :=
    selectWalk_pos_remaining available budget hne
  have hsum : ((selectWalk available budget).1.map Meditation.duration).sum
      = budget - (selectWalk available budget).2 := selectWalk_sum available budget
  refine ⟨⟨?_, ?_⟩, ?_⟩
  · rw [hmeds, assignOffsets_map_duration, hsum]
    omega
  · rw [hpad]
    apply div_nonneg
    · exact_mod_cast hrem.le
    · exact Nat.cast_nonneg _
  · intro m rest r
    exact ⟨fun hlt => selectWalk_cons_accept hlt,
      fun hge => selectWalk_cons_reject hge⟩

/-- The end-to-end catalog of the spec's scenario: clips of 600, 900 and
1200 seconds, walked in this order against a budget of 1800. -/
def demoCatalog : List Meditation :=
  [{ path := "a", duration := 600, offset := 0 },
   { path := "b", duration := 900, offset := 0 },
   { path := "c", duration := 1200, offset := 0 }]

/-- The plan the code produces on `demoCatalog` with budget 1800:
clips `a` and `b` selected, padding `(1800 - 1500) / 2 = 150`, offsets
`0` and `750 = 600 + 150`. -/
def demoSession : MeditationSession :=
  { meditations :=
      [{ path := "a", duration := 600, offset := 0 },
       { path := "b", duration := 900, offset := 750 }]
    duration := 1800
    padding := 150 }

theorem demoCatalog_create :
    MeditationSession.create demoCatalog 1800 = Except.ok demoSession := by
  norm_num [MeditationSession.create, selectWalk, assignOffsets, demoCatalog, demoSession]

theorem c2_witness :
    MeditationSession.create demoCatalog 1800 = Except.ok demoSession ∧
    ((demoSession.meditations.map Meditation.duration).sum < 1800 ∧
      0 ≤ demoSession.padding) :=
  ⟨demoCatalog_create,
    (c2_strict_sum_and_walk_characterization demoCatalog 1800 demoSession
      demoCatalog_create).1⟩

theorem sum_map_ratCast (l : List Meditation) :
    (l.map (fun m => (m.duration : ℚ))).sum = ((l.map Meditation.duration).sum : ℚ) := by
  induction l with
  | nil => simp
  | cons m rest ih => simp [ih]

/-- C3: every plan `MeditationSession.create` returns (over a catalog of
non-negatively-sized clips, as the loader produces) satisfies the
`SessionPlan` invariant: the selected durations plus padding times the
selection count equal the budget exactly in the rational model,
`padding = leftover / selectionCount`, the offsets are strictly increasing
and produced by the running accumulator `offset += duration + padding`,
and the first clip's offset is exactly 0. -/
theorem c3_plan_invariant
    (available : List Meditation) (budget : ℤ) (s : MeditationSession)
    (hd : ∀ m ∈ available, 0 ≤ m.duration)
    (h : MeditationSession.create available budget = Except.ok s) :
    ((s.meditations.map (fun m => (m.duration : ℚ))).sum
        + s.padding * (s.meditations.length : ℚ) = (budget : ℚ)) ∧
    s.padding = ((budget : ℚ) - (s.meditations.map (fun m => (m.duration : ℚ))).sum)
        / (s.meditations.length : ℚ) ∧
    (s.meditations.map Meditation.offset).Pairwise (· < ·) ∧
    List.Chain' (fun a b => b.offset = a.offset + (a.duration : ℚ) + s.padding)
      s.meditations ∧
    ∀ m0, s.meditations.head? = some m0 → m0.offset = 0 := by
  obtain ⟨hne, hpad, hmeds, -⟩ := create_ok h
  have hrem : 0 < (selectWalk available budget).2 :=
    selectWalk_pos_remaining available budget hne
  have hlen : (selectWalk available budget).1.length ≠ 0 := by
    simpa [List.length_eq_zero] using hne
  have hlenq : ((selectWalk available budget).1.length : ℚ) ≠ 0 := by
    exact_mod_cast hlen
  have hppos : 0 < s.padding := by
    rw [hpad]
    apply div_pos
    · exact_mod_cast hrem
    · exact_mod_cast Nat.pos_of_ne_zero hlen
  have hdsel : ∀ m ∈ (selectWalk available budget).1, 0 ≤ m.duration :=
    fun m hm => hd m (selectWalk_mem available budget m hm)
  have hsum : (s.meditations.map (fun m => (m.duration : ℚ))).sum
      = (budget : ℚ) - ((selectWalk available budget).2 : ℚ) := by
    rw [hmeds, sum_map_ratCast, assignOffsets_map_duration,
      selectWalk_sum available budget]
    push_cast
    ring
  have hlens : (s.meditations.length : ℚ)
      = ((selectWalk available budget).1.length : ℚ) := by
    rw [hmeds, assignOffsets_length]
  refine ⟨?_, ?_, ?_, ?_, ?_⟩
  · rw [hsum, hlens, hpad, div_mul_cancel₀ _ hlenq]
    ring
  · rw [hsum, hlens, hpad]
    ring_nf
  · have := (assignOffsets_strict_chain s.padding hppos
      (selectWalk available budget).1 0 hdsel).1
    rw [← hmeds] at this
    exact List.chain'_iff_pairwise.mp this
  · rw [hmeds]
    exact assignOffsets_accumulator s.padding (selectWalk available budget).1 0
  · intro m0 hm0
    rw [hmeds] at hm0
    cases hsel : (selectWalk available budget).1 with
    | nil => exact absurd hsel hne
    | cons a rest =>
      rw [hsel, assignOffsets_head] at hm0
      have := Option.some.inj hm0
      rw [← this]

theorem c3_witness :
    (∀ m ∈ demoCatalog, 0 ≤ m.duration) ∧
    MeditationSession.create demoCatalog 1800 = Except.ok demoSession ∧
    ((demoSession.meditations.map (fun m => (m.duration : ℚ))).sum
        + demoSession.padding * (demoSession.meditations.length : ℚ)
      = ((1800 : ℤ) : ℚ)) :=
  ⟨by decide, demoCatalog_create,
    (c3_plan_invariant demoCatalog 1800 demoSession (by decide)
      demoCatalog_create).1⟩

/-- C10: whenever `MeditationSession.create` returns a plan and the budget
is positive, the leftover budget after selection is strictly positive —
acceptance requires a duration strictly below the current remaining, so
the remaining budget can never reach zero — and hence the padding is
strictly positive, not merely non-negative. -/
theorem c10_leftover_strictly_positive
    (available : List Meditation) (budget : ℤ) (s : MeditationSession)
    (_hb : 0 < budget)
    (h : MeditationSession.create available budget = Except.ok s) :
    0 < budget - (s.meditations.map Meditation.duration).sum ∧ 0 < s.padding := by
  obtain ⟨hne, hpad, hmeds, -⟩ := create_ok h
  have hrem : 0 < (selectWalk available budget).2 :=
    selectWalk_pos_remaining available budget hne
  have hlen : (selectWalk available budget).1.length ≠ 0 := by
    simpa [List.length_eq_zero] using hne
  constructor
  · rw [hmeds, assignOffsets_map_duration, selectWalk_sum available budget]
    omega
  · rw [hpad]
    apply div_pos
    · exact_mod_cast hrem
    · exact_mod_cast Nat.pos_of_ne_zero hlen

theorem c10_witness :
    (0 : ℤ) < 1800 ∧
    MeditationSession.create demoCatalog 1800 = Except.ok demoSession ∧
    (0 < 1800 - (demoSession.meditations.map Meditation.duration).sum ∧
      0 < demoSession.padding) :=
  ⟨by decide, demoCatalog_create,
    c10_leftover_strictly_positive demoCatalog 1800 demoSession (by decide)
      demoCatalog_create⟩

/-- C4: during clip playback the backlight/heartbeat policy is pure
tick-count modular arithmetic — a heartbeat frame and backlight-on on
every multiple of 90, backlight-off on every multiple of 30 that is not a
multiple of 90, no write otherwise — and simulating 180 ticks with no
cancellation turns the backlight on exactly at ticks 90 and 180 and off
exactly at ticks 30, 60, 120 and 150. -/
theorem c4_tick_policy :
    (∀ n : ℕ,
      (tickEffect n = ⟨true, some true⟩ ↔ n % 90 = 0) ∧
      (tickEffect n = ⟨false, some false⟩ ↔ (n % 30 = 0 ∧ ¬ n % 90 = 0)) ∧
      (tickEffect n = ⟨false, none⟩ ↔ ¬ n % 30 = 0)) ∧
    (List.range' 1 180).filter
        (fun n => decide ((tickEffect n).backlight = some true)) = [90, 180] ∧
    (List.range' 1 180).filter
        (fun n => decide ((tickEffect n).backlight = some false))
      = [30, 60, 120, 150] := by
  refine ⟨?_, by decide, by decide⟩
  intro n
  by_cases h90 : n % 90 = 0
  · have h30 : n % 30 = 0 := by omega
    simp [tickEffect, h90, h30]
  · by_cases h30 : n % 30 = 0
    · simp [tickEffect, h90, h30]
    · simp [tickEffect, h90, h30]

/-- C5 counterexample: the claim that a cancellation during *any*
playback leaves the backlight on fails for the looping alarm —
`play_alarm`'s interrupt handler has no backlight write, so a
cancellation with the backlight initially off returns with it still off. -/
theorem c5_counterexample :
    ¬ ((playAlarmCancelAt { backlight := false, childRunning := false } 1).1.backlight
        = true) := by
  decide

/-- C5 amended: a cancellation at any tick of a scheduled clip's playback
terminates the child, waits for it (no orphan), unconditionally forces
the backlight on, and propagates the cancellation; a cancellation of the
looping alarm terminates the child, waits for it, and propagates, but
performs no backlight write, leaving the backlight in its prior state. -/
theorem c5_amended_cancellation_cleanup (s0 : PlayState) (t : ℕ) :
    ((playMeditationCancelAt s0 t).1.backlight = true ∧
     (playMeditationCancelAt s0 t).1.childRunning = false ∧
     (playMeditationCancelAt s0 t).2 = PlayOutcome.cancelled) ∧
    ((playAlarmCancelAt s0 t).1.backlight = s0.backlight ∧
     (playAlarmCancelAt s0 t).1.childRunning = false ∧
     (playAlarmCancelAt s0 t).2 = PlayOutcome.cancelled) :=
  ⟨⟨rfl, rfl, rfl⟩, ⟨rfl, rfl, rfl⟩⟩

/-- A one-clip session, used to exhibit the status-block placement range. -/
def c7Session : MeditationSession :=
  { meditations := [{ path := "a", duration := 600, offset := 0 }]
    duration := 600
    padding := 1 }

/-- C7 counterexample: on a 12-line terminal with a 7-line status block
the spec's interval `[0, totalLines − statusBlockLines]` contains offset
5, but the code draws from `randint(0, lines - 1 - len(status))`, whose
support is `[0, 4]` — offset 5 can never occur. -/
theorem c7_counterexample :
    (5 : ℤ) ∈ specTopSupport 12 c7Session ∧ (5 : ℤ) ∉ topSupport 12 c7Session := by
  constructor <;> decide

/-- C7 amended: the status block's starting line is drawn uniformly from
the closed interval `[0, totalLines − statusBlockLines − 1]`: exactly the
integers of that range are possible, and in particular the offset
`totalLines − statusBlockLines` claimed by the spec never occurs. -/
theorem c7_amended_top_support (lines : ℕ) (s : MeditationSession) :
    (∀ x : ℤ, x ∈ topSupport lines s ↔
      0 ≤ x ∧ x ≤ (lines : ℤ) - (statusLen s : ℤ) - 1) ∧
    ((lines : ℤ) - (statusLen s : ℤ)) ∉ topSupport lines s := by
  constructor
  · intro x
    simp only [topSupport, randintSupport, Finset.mem_Icc]
    omega
  · simp only [topSupport, randintSupport, Finset.mem_Icc]
    omega

/-- C9: each rendered heartbeat frame draws exactly
`(lines − statusBlockLines) * columns` noise cells, for every terminal
geometry, session and random source. -/
theorem c9_noise_cell_count (lines cols : ℕ) (s : MeditationSession)
    (rand : ℕ → Char) :
    (noiseCells lines cols s rand).length = (lines - statusLen s) * cols := by
  simp [noiseCells, pyChoices]

theorem pyTrunc_nonneg {q : ℚ} (h : 0 ≤ q) : 0 ≤ pyTrunc q :=
  Int.tdiv_nonneg (Rat.num_nonneg.mpr h) (by positivity)

/-- C6 counterexample: the claim fails on two concrete inputs. A file
whose probe succeeds and reports a duration of `0` (a zero-length
stream) is *not* excluded: the catalog keeps a clip with
`durationSeconds = 0`, refuting strict positivity. And a file whose
probe output carries a `duration=` value that `float()` rejects
(ffprobe's `duration=N/A`, the unknown-duration case) is *not* silently
skipped: the uncaught `ValueError` aborts the whole loading, so even the
parsable file after it is never loaded. -/
theorem c6_counterexample :
    (¬ ∀ ms, load_meditations
          [("zero", ProbeResult.success [ProbeLine.durationLine 0])]
        = Except.ok ms → ∀ m ∈ ms, 0 < m.duration) ∧
    load_meditations
        [("bad", ProbeResult.success [ProbeLine.durationUnparsable]),
         ("good", ProbeResult.success
            [ProbeLine.other, ProbeLine.durationLine 3])]
      = Except.error LoadError.valueError := by
  constructor
  · intro hall
    have h0 := hall [{ path := "zero", duration := 0, offset := 0 }] rfl
    have hmem : ({ path := "zero", duration := 0, offset := 0 } : Meditation)
        ∈ [({ path := "zero", duration := 0, offset := 0 } : Meditation)] := by
      decide
    exact absurd (h0 { path := "zero", duration := 0, offset := 0 } hmem)
      (by decide)
  · rfl

/-- Loading a successful catalog only ever returns clips whose duration
is the truncation of a parsed probe value, hence non-negative whenever
the parsable probe values are. -/
theorem load_meditations_nonneg :
    ∀ (files : List (String × ProbeResult)),
      (∀ f ∈ files, ∀ lns, f.2 = ProbeResult.success lns →
        ∀ v, findDuration lns = some (some v) → 0 ≤ v) →
      ∀ ms, load_meditations files = Except.ok ms →
        ∀ m ∈ ms, 0 ≤ m.duration := by
  intro files
  induction files with
  | nil =>
    intro _ ms hms m hm
    have h0 : ([] : List Meditation) = ms := Except.ok.inj hms
    rw [← h0] at hm
    simp at hm
  | cons f rest ih =>
    intro hv ms hms m hm
    have hvrest : ∀ g ∈ rest, ∀ lns, g.2 = ProbeResult.success lns →
        ∀ v, findDuration lns = some (some v) → 0 ≤ v :=
      fun g hg => hv g (List.mem_cons_of_mem f hg)
    match hload : Meditation.load f.1 f.2 with
    | Except.error e =>
      rw [load_meditations, hload] at hms
      exact absurd hms (by simp)
    | Except.ok none =>
      rw [load_meditations, hload] at hms
      exact ih hvrest ms hms m hm
    | Except.ok (some m0) =>
      rw [load_meditations, hload] at hms
      match hrest : load_meditations rest with
      | Except.error e =>
        rw [hrest] at hms
        exact absurd hms (by simp)
      | Except.ok ms2 =>
        rw [hrest] at hms
        have hcons : m0 :: ms2 = ms := Except.ok.inj hms
        rw [← hcons] at hm
        rcases List.mem_cons.mp hm with rfl | hm2
        · match hpr : f.2 with
          | ProbeResult.failure =>
            rw [hpr] at hload
            exact absurd hload (by simp [Meditation.load])
          | ProbeResult.success lns =>
            rw [hpr] at hload
            match hfd : findDuration lns with
            | some (some v) =>
              rw [Meditation.load, hfd] at hload
              have hm0 := Option.some.inj (Except.ok.inj hload)
              have hv0 : 0 ≤ v := hv f (List.mem_cons_self f rest) lns hpr v hfd
              rw [← hm0]
              exact pyTrunc_nonneg hv0
            | some none =>
              rw [Meditation.load, hfd] at hload
              exact absurd hload (by simp)
            | none =>
              rw [Meditation.load, hfd] at hload
              exact absurd hload (by simp)
        · exact ih hvrest ms2 hrest m hm2

/-- C6 amended: files whose probe exits non-zero and files whose output
has no `duration=` line at all are silently skipped and loading
continues; but a `duration=` line whose value fails `float()` raises an
uncaught `ValueError` that aborts the whole loading (a crash, not a
skip), and a clip whose parsed duration truncates to zero is kept, so a
returned catalog's durations are only non-negative (for non-negative
parsable probe values), not strictly positive. -/
theorem c6_amended_catalog_loading
    (files : List (String × ProbeResult))
    (hv : ∀ f ∈ files, ∀ lns, f.2 = ProbeResult.success lns →
      ∀ v, findDuration lns = some (some v) → 0 ≤ v) :
    (∀ ms, load_meditations files = Except.ok ms →
      ∀ m ∈ ms, 0 ≤ m.duration) ∧
    (∀ p, Meditation.load p ProbeResult.failure = Except.ok none) ∧
    (∀ p lns, findDuration lns = none →
      Meditation.load p (ProbeResult.success lns) = Except.ok none) ∧
    (∀ p lns, findDuration lns = some none →
      Meditation.load p (ProbeResult.success lns)
        = Except.error LoadError.valueError) ∧
    (∀ g : String × ProbeResult, Meditation.load g.1 g.2 = Except.ok none →
      load_meditations (g :: files) = load_meditations files) := by
  refine ⟨load_meditations_nonneg files hv, fun p => rfl, ?_, ?_, ?_⟩
  · intro p lns hfd
    rw [Meditation.load, hfd]
  · intro p lns hfd
    rw [Meditation.load, hfd]
  · intro g hg
    rw [load_meditations, hg]

/-- A concrete loading run: one probe failure, one success with a
3-second duration, one success whose output has no duration line. -/
def c6Files : List (String × ProbeResult) :=
  [("a", ProbeResult.failure),
   ("b", ProbeResult.success [ProbeLine.other, ProbeLine.durationLine 3]),
   ("c", ProbeResult.success [ProbeLine.other])]

theorem c6Files_nonneg :
    ∀ f ∈ c6Files, ∀ lns, f.2 = ProbeResult.success lns →
      ∀ v, findDuration lns = some (some v) → 0 ≤ v := by
  intro f hf lns hlns v hfd
  fin_cases hf
  · exact absurd hlns (by simp)
  · have h1 : lns = [ProbeLine.other, ProbeLine.durationLine 3] :=
      (ProbeResult.success.inj hlns).symm
    rw [h1] at hfd
    simp only [findDuration] at hfd
    have h2 : (3 : ℚ) = v := Option.some.inj (Option.some.inj hfd)
    rw [← h2]
    norm_num
  · have h1 : lns = [ProbeLine.other] := (ProbeResult.success.inj hlns).symm
    rw [h1] at hfd
    simp [findDuration] at hfd

theorem c6_witness :
    (∀ f ∈ c6Files, ∀ lns, f.2 = ProbeResult.success lns →
      ∀ v, findDuration lns = some (some v) → 0 ≤ v) ∧
    (∀ ms, load_meditations c6Files = Except.ok ms →
      ∀ m ∈ ms, 0 ≤ m.duration) :=
  ⟨c6Files_nonneg, (c6_amended_catalog_loading c6Files c6Files_nonneg).1⟩

theorem assignOffsets_mem (p : ℚ) :
    ∀ (l : List Meditation) (o : ℚ) (m : Meditation),
      m ∈ assignOffsets p o l →
        ∃ m0 ∈ l, m.path = m0.path ∧ m.duration = m0.duration := by
  intro l
  induction l with
  | nil => intro o m h; simp [assignOffsets] at h
  | cons a rest ih =>
    intro o m hm
    rcases List.mem_cons.mp hm with heq | htail
    · exact ⟨a, List.mem_cons_self a rest, by rw [heq], by rw [heq]⟩
    · obtain ⟨m0, hm0, hpd⟩ := ih _ m htail
      exact ⟨m0, List.mem_cons_of_mem a hm0, hpd⟩

def c8ClipA : Meditation := { path := "a", duration := 2, offset := 0 }

def c8ClipB : Meditation := { path := "b", duration := 3, offset := 0 }

/-- The session the code produces from `[c8ClipA, c8ClipB]` with budget
10: both clips selected, padding `5/2`, and the second clip's `offset`
field rewritten to `2 + 5/2 = 9/2`. -/
def c8SessionAB : MeditationSession :=
  { meditations :=
      [{ path := "a", duration := 2, offset := 0 },
       { path := "b", duration := 3, offset := 9/2 }]
    duration := 10
    padding := 5/2 }

/-- Same catalog walked in the other shuffle order. -/
def c8SessionBA : MeditationSession :=
  { meditations :=
      [{ path := "b", duration := 3, offset := 0 },
       { path := "a", duration := 2, offset := 11/2 }]
    duration := 10
    padding := 5/2 }

/-- C8 counterexample: planning is not read-only on the clips. For the
two-clip catalog `{a: 2s, b: 3s}` and budget 10, under either shuffle
order the plan returned by `MeditationSession.create` contains a clip
object whose `offset` field has been rewritten (in place, on the shared
object, in the source), so the planned clips are not the unmodified
catalog objects. -/
theorem c8_counterexample :
    (MeditationSession.create [c8ClipA, c8ClipB] 10 = Except.ok c8SessionAB ∧
      c8SessionAB.meditations ≠ [c8ClipA, c8ClipB]) ∧
    (MeditationSession.create [c8ClipB, c8ClipA] 10 = Except.ok c8SessionBA ∧
      c8SessionBA.meditations ≠ [c8ClipB, c8ClipA]) := by
  refine ⟨⟨?_, ?_⟩, ⟨?_, ?_⟩⟩
  · norm_num [MeditationSession.create, selectWalk, assignOffsets,
      c8ClipA, c8ClipB, c8SessionAB]
  · norm_num [c8SessionAB, c8ClipA, c8ClipB, Meditation.mk.injEq]
  · norm_num [MeditationSession.create, selectWalk, assignOffsets,
      c8ClipB, c8ClipA, c8SessionBA]
  · norm_num [c8SessionBA, c8ClipA, c8ClipB, Meditation.mk.injEq]

/-- C8 amended: planning rewrites exactly the `offset` field of each
selected clip (in place, on the objects shared with the catalog); the
`path` and `duration` fields of every planned clip are the untouched
values of a catalog clip, and the plan is not otherwise modified: its
clip list is the selection with only offsets reassigned. -/
theorem c8_amended_only_offset_rewritten
    (available : List Meditation) (budget : ℤ) (s : MeditationSession)
    (h : MeditationSession.create available budget = Except.ok s) :
    s.meditations.map (fun m => (m.path, m.duration))
      = (selectWalk available budget).1.map (fun m => (m.path, m.duration)) ∧
    ∀ m ∈ s.meditations, ∃ m0 ∈ available,
      m.path = m0.path ∧ m.duration = m0.duration := by
  obtain ⟨-, -, hmeds, -⟩ := create_ok h
  constructor
  · rw [hmeds, assignOffsets_map_path_duration]
  · intro m hm
    rw [hmeds] at hm
    obtain ⟨m0, hm0, hpd⟩ := assignOffsets_mem _ _ _ m hm
    exact ⟨m0, selectWalk_mem available budget m0 hm0, hpd⟩

theorem c8_witness :
    MeditationSession.create demoCatalog 1800 = Except.ok demoSession ∧
    demoSession.meditations.map (fun m => (m.path, m.duration))
      = (selectWalk demoCatalog 1800).1.map (fun m => (m.path, m.duration)) :=
  ⟨demoCatalog_create,
    (c8_amended_only_offset_rewritten demoCatalog 1800 demoSession
      demoCatalog_create).1⟩
